import Mathlib

/-!
# Verification of the config-DSL lexer/parser pipeline

Shallow embedding of `src/main.py`: comment stripping (`remove_comments`),
the fixed-priority regex lexer (`tokenize` over `TOKEN_REGEX`), and the
recursive-descent parser (`Parser.parse`, `parse_set`, `parse_value`,
`parse_list`, `parse_struct`) with its constant table.

Modelling conventions:
* Text is `List Char`; ASCII character classes model Python's regex classes.
* Python `float` values are modelled as exact decimal rationals (`ℚ`).
* Python exceptions are modelled by `Err`: `SyntaxError` carries its message;
  `attributeError` models the `AttributeError` that `parse_value` raises when
  it dereferences `self.peek()` (which is `None` at end of input) via
  `tok.type` without a `None` check.
* Python `dict` is modelled as an association list with update-in-place
  (`dictUpdate`): an existing key keeps its position and gets the new value,
  a new key is appended — exactly Python's insertion-order semantics.
* Recursion that Python performs with unbounded loops is embedded with an
  explicit fuel parameter; theorems below prove that the chosen fuel is
  always sufficient, so the fuel-exhaustion branches are unreachable.
-/

set_option linter.unusedVariables false

namespace ConfigHW

/-- The single-quote character (code point 39), written numerically. -/
def quoteC : Char := Char.ofNat 39

/-- The pipe character, delimiter of constant references. -/
def pipeC : Char := Char.ofNat 124

/-- Tab character, part of the whitespace class `[ \t\n]`. -/
def tabC : Char := Char.ofNat 9

/-- Newline character, part of the whitespace class `[ \t\n]`. -/
def nlC : Char := Char.ofNat 10

/-! ## Comment stripping: `re.sub(r"--\[\[.*?\]\]", "", text, flags=re.S)` -/

/-- Scan for the first occurrence of `]]`; return the suffix after it.
This is the non-greedy `.*?\]\]` part of the comment regex. -/
def findClose : List Char → Option (List Char)
  | a :: b :: rest => if a = ']' ∧ b = ']' then some rest else findClose (b :: rest)
  | _ => none

/-- Does the text begin with the comment opener `--[[`? -/
def startsComment (cs : List Char) : Bool :=
  match cs with
  | a :: b :: c :: d :: _ => a = '-' ∧ b = '-' ∧ c = '[' ∧ d = '['
  | _ => false

/-- If a comment `--\[\[.*?\]\]` matches at the start of `cs`, return the
suffix after the (non-greedy) match; otherwise `none`. -/
def commentEnd (cs : List Char) : Option (List Char) :=
  match cs with
  | a :: b :: c :: d :: body =>
    if a = '-' ∧ b = '-' ∧ c = '[' ∧ d = '[' then findClose body else none
  | _ => none

/-- One fueled pass of `re.sub`: at each position, if the comment pattern
matches, drop the match and continue after it; otherwise keep the character.
`none` means the fuel ran out (shown impossible below). -/
def removeCommentsF : Nat → List Char → Option (List Char)
  | _, [] => some []
  | 0, _ :: _ => none
  | fuel + 1, c :: rest =>
    match commentEnd (c :: rest) with
    | some rem => removeCommentsF fuel rem
    | none => (removeCommentsF fuel rest).map (c :: ·)

theorem findClose_length : ∀ cs rem, findClose cs = some rem → rem.length + 2 ≤ cs.length := by
  intro cs
  induction cs with
  | nil => intro rem h; simp [findClose] at h
  | cons a t ih =>
    intro rem h
    match t with
    | [] => simp [findClose] at h
    | b :: r =>
      rw [findClose] at h
      split at h
      · cases h; simp
      · have := ih rem h
        simp only [List.length_cons] at this ⊢
        omega

theorem commentEnd_length : ∀ cs rem, commentEnd cs = some rem → rem.length + 6 ≤ cs.length := by
  intro cs rem h
  match cs with
  | [] => simp [commentEnd] at h
  | [a] => simp [commentEnd] at h
  | [a, b] => simp [commentEnd] at h
  | [a, b, c] => simp [commentEnd] at h
  | a :: b :: c :: d :: body =>
    rw [commentEnd] at h
    split at h
    · have := findClose_length body rem h
      simp only [List.length_cons]
      omega
    · simp at h

theorem removeCommentsF_isSome :
    ∀ fuel cs, cs.length < fuel → (removeCommentsF fuel cs).isSome := by
  intro fuel
  induction fuel with
  | zero => intro cs h; omega
  | succ f ih =>
    intro cs h
    match cs with
    | [] => simp [removeCommentsF]
    | c :: rest =>
      rw [removeCommentsF]
      cases hce : commentEnd (c :: rest) with
      | some rem =>
        have := commentEnd_length _ _ hce
        simp only [List.length_cons] at h this
        exact ih rem (by omega)
      | none =>
        have h2 := ih rest (by simp only [List.length_cons] at h; omega)
        cases hr : removeCommentsF f rest with
        | none => rw [hr] at h2; simp at h2
        | some r => simp

/-- `remove_comments(text)`: repeatedly delete the leftmost, shortest match of
`--\[\[.*?\]\]` (with `.` matching newlines). The fuel `length + 1` is
sufficient by `removeCommentsF_isSome`, so the default is never used. -/
def remove_comments (text : List Char) : List Char :=
  (removeCommentsF (text.length + 1) text).getD text

/-! ## Lexer: `TOKEN_REGEX` and `tokenize` -/

/-- Token kinds, named as the strings in the Python `TOKEN_REGEX` table. -/
inductive TType
  | NUMBER | STRING | SET | STRUCT | LIST | CONST | IDENT
  | LBRACE | RBRACE | LPAREN | RPAREN | EQUAL | COMMA | SKIP
deriving DecidableEq, Repr

/-- The string Python prints for a token type (used in error messages). -/
def ttName : TType → String
  | .NUMBER => "NUMBER" | .STRING => "STRING" | .SET => "SET" | .STRUCT => "STRUCT"
  | .LIST => "LIST" | .CONST => "CONST" | .IDENT => "IDENT" | .LBRACE => "LBRACE"
  | .RBRACE => "RBRACE" | .LPAREN => "LPAREN" | .RPAREN => "RPAREN"
  | .EQUAL => "EQUAL" | .COMMA => "COMMA" | .SKIP => "SKIP"

/-- `Token(type, value)`: kind plus the raw matched slice. -/
structure Token where
  type : TType
  value : List Char
deriving DecidableEq, Repr

/-- Python word character for `\b` (ASCII fragment of `\w`): `[A-Za-z0-9_]`. -/
def isWordChar (c : Char) : Bool := c.isAlphanum || c = '_'

/-- Characters allowed after the first in identifiers/constant names: `[a-z0-9_]`. -/
def isNameChar (c : Char) : Bool := c.isLower || c.isDigit || c = '_'

/-- Whitespace class `[ \t\n]`. -/
def isSkipChar (c : Char) : Bool := c = ' ' || c = tabC || c = nlC

/-- Decomposition of a list's length by `takeWhile`/`dropWhile`. -/
theorem tw_dw_length (p : Char → Bool) (l : List Char) :
    (l.takeWhile p).length + (l.dropWhile p).length = l.length := by
  have h := congrArg List.length (List.takeWhile_append_dropWhile p l)
  rw [List.length_append] at h
  exact h

/-- `takeWhile` never lengthens a list. -/
theorem tw_length_le (p : Char → Bool) (l : List Char) :
    (l.takeWhile p).length ≤ l.length := by
  have := tw_dw_length p l
  omega

/-- `\d*\.\d+` — optional integer digits, a dot, then one-or-more digits
(matcher for the `NUMBER` pattern; the anchored regex needs no backtracking
because `.` is not a digit). -/
def m_number (cs : List Char) : Option Nat :=
  match cs.dropWhile Char.isDigit with
  | d :: r2 =>
    if d = '.' ∧ ¬ (r2.takeWhile Char.isDigit).isEmpty
    then some ((cs.takeWhile Char.isDigit).length + 1 + (r2.takeWhile Char.isDigit).length)
    else none
  | [] => none

/-- `'[^']*'` — a quote, a run of non-quotes, a quote. -/
def m_string (cs : List Char) : Option Nat :=
  match cs with
  | q :: r =>
    match r.dropWhile (fun c => ¬ (c = quoteC)) with
    | q2 :: _ =>
      if q = quoteC ∧ q2 = quoteC
      then some ((r.takeWhile (fun c => ¬ (c = quoteC))).length + 2)
      else none
    | [] => none
  | [] => none

/-- A literal keyword followed by a word boundary (`set\b`, `struct\b`,
`\(list\b`): each keyword ends in a word character, so the boundary holds
exactly when the next character is absent or not a word character. -/
def m_keyword (kw : List Char) (cs : List Char) : Option Nat :=
  if kw.isPrefixOf cs then
    match (cs.drop kw.length).head? with
    | some c => if isWordChar c then none else some kw.length
    | none => some kw.length
  else none

/-- `set\b`. -/
def m_set : List Char → Option Nat := m_keyword ['s', 'e', 't']

/-- `struct\b`. -/
def m_struct : List Char → Option Nat := m_keyword ['s', 't', 'r', 'u', 'c', 't']

/-- `\(list\b`. -/
def m_list : List Char → Option Nat := m_keyword ['(', 'l', 'i', 's', 't']

/-- `\|[a-z][a-z0-9_]*\|` (the run `[a-z0-9_]*` cannot contain `|`, so the
greedy run needs no backtracking). -/
def m_const (cs : List Char) : Option Nat :=
  match cs with
  | p1 :: c :: r =>
    match r.dropWhile isNameChar with
    | p2 :: _ =>
      if p1 = pipeC ∧ c.isLower ∧ p2 = pipeC
      then some ((r.takeWhile isNameChar).length + 3)
      else none
    | [] => none
  | _ => none

/-- `[a-z][a-z0-9_]*`. -/
def m_ident (cs : List Char) : Option Nat :=
  match cs with
  | c :: r => if c.isLower then some (1 + (r.takeWhile isNameChar).length) else none
  | [] => none

/-- A single literal character (`\{`, `\}`, `\(`, `\)`, `=`, `,`). -/
def m_char (ch : Char) (cs : List Char) : Option Nat :=
  match cs with
  | c :: _ => if c = ch then some 1 else none
  | [] => none

/-- `[ \t\n]+`. -/
def m_skip (cs : List Char) : Option Nat :=
  if (cs.takeWhile isSkipChar).isEmpty then none else some (cs.takeWhile isSkipChar).length

/-- The `TOKEN_REGEX` table, in the source's priority order. -/
def TOKEN_REGEX : List (TType × (List Char → Option Nat)) :=
  [(.NUMBER, m_number), (.STRING, m_string), (.SET, m_set), (.STRUCT, m_struct),
   (.LIST, m_list), (.CONST, m_const), (.IDENT, m_ident),
   (.LBRACE, m_char '{'), (.RBRACE, m_char '}'), (.LPAREN, m_char '('),
   (.RPAREN, m_char ')'), (.EQUAL, m_char '='), (.COMMA, m_char ','),
   (.SKIP, m_skip)]

/-- Try the matchers in order; accept the first that matches (the
`for ttype, regex in TOKEN_REGEX` loop body). -/
def tryMatchers : List (TType × (List Char → Option Nat)) → List Char → Option (TType × Nat)
  | [], _ => none
  | (t, m) :: ms, cs =>
    match m cs with
    | some n => some (t, n)
    | none => tryMatchers ms cs

/-- The first pattern of `TOKEN_REGEX`, in priority order, that matches at the
start of `cs`, with its match length. -/
def firstMatch (cs : List Char) : Option (TType × Nat) := tryMatchers TOKEN_REGEX cs

/-- Python exceptions that the pipeline can raise. `attributeError` models the
`AttributeError` from dereferencing `None` (`tok.type` in `parse_value` when
the cursor is exhausted); everything else is a `SyntaxError` with its message. -/
inductive Err
  | syntaxError (msg : String)
  | attributeError
deriving DecidableEq, Repr

/-- Fueled result: `fuelOut` marks fuel exhaustion (proved unreachable for the
fuel budgets used below); `err` is a raised exception. -/
inductive PRes (α : Type)
  | fuelOut
  | err (e : Err)
  | ok (a : α)
deriving DecidableEq, Repr

/-- The `while pos < len(text)` loop of `tokenize`, fueled. `pos` is the
0-based offset of the current position in the original text. -/
def tokenizeAuxF (fuel : Nat) (cs : List Char) (pos : Nat) : PRes (List Token) :=
  match cs with
  | [] => .ok []
  | c :: rest =>
    match fuel with
    | 0 => .fuelOut
    | fuel' + 1 =>
      match firstMatch (c :: rest) with
      | some (t, n) =>
        match tokenizeAuxF fuel' ((c :: rest).drop n) (pos + n) with
        | .fuelOut => .fuelOut
        | .err e => .err e
        | .ok ts => .ok (if t = .SKIP then ts else ⟨t, (c :: rest).take n⟩ :: ts)
      | none => .err (.syntaxError ("Unexpected character at position " ++ toString pos))

theorem m_number_bounds : ∀ cs n, m_number cs = some n → 0 < n ∧ n ≤ cs.length := by
  intro cs n h
  unfold m_number at h
  split at h
  · rename_i d r2 heq
    split at h
    · cases h
      have hlen := tw_dw_length Char.isDigit cs
      rw [heq] at hlen
      have hfs := tw_length_le Char.isDigit r2
      simp only [List.length_cons] at hlen
      constructor <;> omega
    · simp at h
  · simp at h

theorem m_string_bounds : ∀ cs n, m_string cs = some n → 0 < n ∧ n ≤ cs.length := by
  intro cs n h
  unfold m_string at h
  split at h
  · rename_i q r
    split at h
    · rename_i q2 r2 heq
      split at h
      · cases h
        have hlen := tw_dw_length (fun c => ¬ (c = quoteC)) r
        rw [heq] at hlen
        simp only [List.length_cons] at hlen ⊢
        constructor <;> omega
      · simp at h
    · simp at h
  · simp at h

theorem m_keyword_bounds : ∀ kw cs n, kw ≠ [] → m_keyword kw cs = some n →
    0 < n ∧ n ≤ cs.length := by
  intro kw cs n hkw h
  unfold m_keyword at h
  split at h
  · rename_i hpre
    have hle : kw.length ≤ cs.length := (List.isPrefixOf_iff_prefix.mp hpre).length_le
    have hpos : 0 < kw.length := List.length_pos.mpr hkw
    split at h
    · split at h
      · simp at h
      · cases h; exact ⟨hpos, hle⟩
    · cases h; exact ⟨hpos, hle⟩
  · simp at h

theorem m_const_bounds : ∀ cs n, m_const cs = some n → 0 < n ∧ n ≤ cs.length := by
  intro cs n h
  unfold m_const at h
  split at h
  · rename_i p1 c r
    split at h
    · rename_i p2 r2 heq
      split at h
      · cases h
        have hlen := tw_dw_length isNameChar r
        rw [heq] at hlen
        simp only [List.length_cons] at hlen ⊢
        constructor <;> omega
      · simp at h
    · simp at h
  · simp at h

theorem m_ident_bounds : ∀ cs n, m_ident cs = some n → 0 < n ∧ n ≤ cs.length := by
  intro cs n h
  unfold m_ident at h
  split at h
  · rename_i c r
    split at h
    · cases h
      have := tw_length_le isNameChar r
      simp only [List.length_cons]
      constructor <;> omega
    · simp at h
  · simp at h

theorem m_char_bounds : ∀ ch cs n, m_char ch cs = some n → 0 < n ∧ n ≤ cs.length := by
  intro ch cs n h
  unfold m_char at h
  split at h
  · split at h
    · cases h; simp
    · simp at h
  · simp at h

theorem m_skip_bounds : ∀ cs n, m_skip cs = some n → 0 < n ∧ n ≤ cs.length := by
  intro cs n h
  unfold m_skip at h
  split at h
  · simp at h
  · rename_i hne
    cases h
    have hle := tw_length_le isSkipChar cs
    simp only [List.isEmpty_iff] at hne
    have : (cs.takeWhile isSkipChar).length ≠ 0 := fun h0 => hne (List.length_eq_zero.mp h0)
    constructor <;> omega

/-- Every pattern in the table matches at least one character and at most the
whole remaining text. -/
theorem firstMatch_bounds : ∀ cs t n, firstMatch cs = some (t, n) → 0 < n ∧ n ≤ cs.length := by
  have step : ∀ ms cs t n,
      (∀ p ∈ ms, ∀ k, p.2 cs = some k → 0 < k ∧ k ≤ cs.length) →
      tryMatchers ms cs = some (t, n) → 0 < n ∧ n ≤ cs.length := by
    intro ms
    induction ms with
    | nil => intro cs t n _ h; simp [tryMatchers] at h
    | cons p ms ih =>
      intro cs t n hall h
      obtain ⟨t0, m0⟩ := p
      rw [tryMatchers] at h
      cases hm : m0 cs with
      | some k =>
        rw [hm] at h
        simp only [Option.some.injEq, Prod.mk.injEq] at h
        obtain ⟨rfl, rfl⟩ := h
        exact hall (t0, m0) (by simp) k hm
      | none =>
        rw [hm] at h
        exact ih cs t n (fun q hq => hall q (by simp [hq])) h
  intro cs t n h
  refine step TOKEN_REGEX cs t n ?_ h
  intro p hp k hk
  simp only [TOKEN_REGEX, List.mem_cons, List.not_mem_nil, or_false] at hp
  rcases hp with rfl | rfl | rfl | rfl | rfl | rfl | rfl | rfl | rfl | rfl | rfl | rfl | rfl | rfl
  · exact m_number_bounds cs k hk
  · exact m_string_bounds cs k hk
  · exact m_keyword_bounds _ cs k (by simp) hk
  · exact m_keyword_bounds _ cs k (by simp) hk
  · exact m_keyword_bounds _ cs k (by simp) hk
  · exact m_const_bounds cs k hk
  · exact m_ident_bounds cs k hk
  · exact m_char_bounds _ cs k hk
  · exact m_char_bounds _ cs k hk
  · exact m_char_bounds _ cs k hk
  · exact m_char_bounds _ cs k hk
  · exact m_char_bounds _ cs k hk
  · exact m_char_bounds _ cs k hk
  · exact m_skip_bounds cs k hk

/-- The fuel `length + 1` never runs out: each loop iteration consumes at
least one character. -/
theorem tokenizeAuxF_ne_fuelOut :
    ∀ fuel cs pos, cs.length < fuel → tokenizeAuxF fuel cs pos ≠ .fuelOut := by
  intro fuel
  induction fuel with
  | zero => intro cs pos h; omega
  | succ f ih =>
    intro cs pos h
    match cs with
    | [] => simp [tokenizeAuxF]
    | c :: rest =>
      rw [tokenizeAuxF]
      cases hm : firstMatch (c :: rest) with
      | none => simp
      | some tn =>
        obtain ⟨t, n⟩ := tn
        have hb := firstMatch_bounds _ _ _ hm
        have hdrop : ((c :: rest).drop n).length < f := by
          rw [List.length_drop]
          simp only [List.length_cons] at h ⊢
          omega
        have hne := ih ((c :: rest).drop n) (pos + n) hdrop
        rcases hrec : tokenizeAuxF f ((c :: rest).drop n) (pos + n) with _ | e | ts
        · exact absurd hrec hne
        · simp [hrec]
        · simp [hrec]

/-- `tokenize(text)`: run the fueled loop with sufficient fuel. By
`tokenizeAuxF_ne_fuelOut` the `fuelOut` branch is unreachable. -/
def tokenize (text : List Char) : Except Err (List Token) :=
  match h : tokenizeAuxF (text.length + 1) text 0 with
  | .fuelOut => False.elim (tokenizeAuxF_ne_fuelOut _ text 0 (by omega) h)
  | .err e => .error e
  | .ok ts => .ok ts

/-! ## Values, the constant table, and the parser -/

/-- Parsed values: Python floats (modelled as exact decimal rationals),
strings, lists, and structs (insertion-ordered key/value mappings). -/
inductive Value
  | num (q : ℚ)
  | str (s : List Char)
  | list (items : List Value)
  | struct (fields : List (List Char × Value))
deriving Repr

/-- Python `d[k] = v` on an insertion-ordered dict: an existing key keeps its
position and gets the new value; a new key is appended at the end. -/
def dictUpdate (k : List Char) (v : Value) : List (List Char × Value) → List (List Char × Value)
  | [] => [(k, v)]
  | (k', v') :: rest => if k' = k then (k', v) :: rest else (k', v') :: dictUpdate k v rest

/-- Python `d[k]` / `k in d` on the dict model. -/
def dictGet (k : List Char) : List (List Char × Value) → Option Value
  | [] => none
  | (k', v') :: rest => if k' = k then some v' else dictGet k rest

/-- Python `s.strip(ch)`: remove all leading and trailing copies of `ch`. -/
def stripAll (ch : Char) (cs : List Char) : List Char :=
  ((cs.dropWhile (fun c => c = ch)).reverse.dropWhile (fun c => c = ch)).reverse

/-- Decimal digits to a natural number. -/
def digitsToNat (cs : List Char) : Nat :=
  cs.foldl (fun acc c => 10 * acc + (c.toNat - 48)) 0

/-- Python `float(s)` on a string matched by `\d*\.\d+`, as an exact
rational: integer part plus fractional part. -/
def pyFloat (cs : List Char) : ℚ :=
  (digitsToNat (cs.takeWhile Char.isDigit) : ℚ) +
    (digitsToNat ((cs.dropWhile Char.isDigit).drop 1) : ℚ) /
      (10 : ℚ) ^ ((cs.dropWhile Char.isDigit).drop 1).length

/-- `Parser.peek`: the token at the cursor, or `None` past the end. -/
def peek (tokens : List Token) (pos : Nat) : Option Token := tokens[pos]?

/-- `Parser.consume(expected)`: error on exhausted cursor, error on a kind
mismatch when `expected` is given, otherwise return the token and advance. -/
def consume (tokens : List Token) (pos : Nat) (expected : Option TType) :
    Except Err (Token × Nat) :=
  match peek tokens pos with
  | none => .error (.syntaxError "Unexpected end of input")
  | some tok =>
    match expected with
    | some t =>
      if tok.type = t then .ok (tok, pos + 1)
      else .error (.syntaxError ("Expected " ++ ttName t ++ ", got " ++ ttName tok.type))
    | none => .ok (tok, pos + 1)

/-- A pending parser activity: `parse_value` at a cursor, the item loop of
`parse_list`, or the entry loop of `parse_struct` (the latter two carrying
their Python-local accumulator). The three are mutually recursive in the
source; bundling them into one request type lets the embedding recurse
structurally on fuel. -/
inductive PReq
  | value (pos : Nat)
  | listItems (pos : Nat) (acc : List Value)
  | structItems (pos : Nat) (obj : List (List Char × Value))

/-- Result type of each parser activity. -/
def POutTy : PReq → Type
  | .value _ => Value × Nat
  | .listItems _ _ => List Value × Nat
  | .structItems _ _ => List (List Char × Value) × Nat

/-- The fueled mutual recursion of `parse_value` / `parse_list` /
`parse_struct`. The constant table is read-only here: only `parse_set`
writes it. Faithful to the source, `parse_value` dereferences `peek()`
without a `None` check (`tok.type`), so an exhausted cursor raises
`attributeError` there; the loops and `consume` handle exhaustion with
`SyntaxError`s. -/
def parseF (tokens : List Token) (consts : List (List Char × Value)) :
    (fuel : Nat) → (req : PReq) → PRes (POutTy req) := fun fuel req =>
  match fuel with
  | 0 => .fuelOut
  | fuel' + 1 =>
    match req with
    | .value pos =>
      match peek tokens pos with
      | none => .err .attributeError
      | some tok =>
        if tok.type = .NUMBER then .ok (.num (pyFloat tok.value), pos + 1)
        else if tok.type = .STRING then .ok (.str (stripAll quoteC tok.value), pos + 1)
        else if tok.type = .CONST then
          match dictGet (stripAll pipeC tok.value) consts with
          | none =>
            .err (.syntaxError ("Unknown constant " ++ String.mk (stripAll pipeC tok.value)))
          | some v => .ok (v, pos + 1)
        else if tok.type = .LIST then
          match parseF tokens consts fuel' (.listItems (pos + 1) []) with
          | .fuelOut => .fuelOut
          | .err e => .err e
          | .ok (items, pos2) =>
            match consume tokens pos2 (some .RPAREN) with
            | .error e => .err e
            | .ok (_, pos3) => .ok (.list items, pos3)
        else if tok.type = .STRUCT then
          match consume tokens (pos + 1) (some .LBRACE) with
          | .error e => .err e
          | .ok (_, pos2) =>
            match parseF tokens consts fuel' (.structItems pos2 []) with
            | .fuelOut => .fuelOut
            | .err e => .err e
            | .ok (obj, pos3) =>
              match consume tokens pos3 (some .RBRACE) with
              | .error e => .err e
              | .ok (_, pos4) => .ok (.struct obj, pos4)
        else .err (.syntaxError ("Unexpected token " ++ ttName tok.type))
    | .listItems pos acc =>
      match peek tokens pos with
      | none => .ok (acc, pos)
      | some tok =>
        if tok.type = .RPAREN then .ok (acc, pos)
        else
          match parseF tokens consts fuel' (.value pos) with
          | .fuelOut => .fuelOut
          | .err e => .err e
          | .ok (v, pos2) => parseF tokens consts fuel' (.listItems pos2 (acc ++ [v]))
    | .structItems pos obj =>
      match peek tokens pos with
      | none => .ok (obj, pos)
      | some tok =>
        if tok.type = .RBRACE then .ok (obj, pos)
        else
          match consume tokens pos (some .IDENT) with
          | .error e => .err e
          | .ok (ktok, pos2) =>
            match consume tokens pos2 (some .EQUAL) with
            | .error e => .err e
            | .ok (_, pos3) =>
              match parseF tokens consts fuel' (.value pos3) with
              | .fuelOut => .fuelOut
              | .err e => .err e
              | .ok (v, pos4) =>
                match peek tokens pos4 with
                | some c2 =>
                  if c2.type = .COMMA then
                    parseF tokens consts fuel' (.structItems (pos4 + 1) (dictUpdate ktok.value v obj))
                  else
                    parseF tokens consts fuel' (.structItems pos4 (dictUpdate ktok.value v obj))
                | none => parseF tokens consts fuel' (.structItems pos4 (dictUpdate ktok.value v obj))

/-- Unfolding lemma: out of fuel. -/
theorem parseF_zero (tokens : List Token) (consts) (req : PReq) :
    parseF tokens consts 0 req = .fuelOut := rfl

/-- Unfolding lemma for the `parse_value` activity. -/
theorem parseF_value (tokens : List Token) (consts) (f pos : Nat) :
    parseF tokens consts (f + 1) (.value pos) =
      (match peek tokens pos with
      | none => .err .attributeError
      | some tok =>
        if tok.type = .NUMBER then .ok (.num (pyFloat tok.value), pos + 1)
        else if tok.type = .STRING then .ok (.str (stripAll quoteC tok.value), pos + 1)
        else if tok.type = .CONST then
          match dictGet (stripAll pipeC tok.value) consts with
          | none =>
            .err (.syntaxError ("Unknown constant " ++ String.mk (stripAll pipeC tok.value)))
          | some v => .ok (v, pos + 1)
        else if tok.type = .LIST then
          match parseF tokens consts f (.listItems (pos + 1) []) with
          | .fuelOut => .fuelOut
          | .err e => .err e
          | .ok (items, pos2) =>
            match consume tokens pos2 (some .RPAREN) with
            | .error e => .err e
            | .ok (_, pos3) => .ok (.list items, pos3)
        else if tok.type = .STRUCT then
          match consume tokens (pos + 1) (some .LBRACE) with
          | .error e => .err e
          | .ok (_, pos2) =>
            match parseF tokens consts f (.structItems pos2 []) with
            | .fuelOut => .fuelOut
            | .err e => .err e
            | .ok (obj, pos3) =>
              match consume tokens pos3 (some .RBRACE) with
              | .error e => .err e
              | .ok (_, pos4) => .ok (.struct obj, pos4)
        else .err (.syntaxError ("Unexpected token " ++ ttName tok.type))) := rfl

/-- Unfolding lemma for the item loop of `parse_list`. -/
theorem parseF_listItems (tokens : List Token) (consts) (f pos : Nat) (acc : List Value) :
    parseF tokens consts (f + 1) (.listItems pos acc) =
      (match peek tokens pos with
      | none => .ok (acc, pos)
      | some tok =>
        if tok.type = .RPAREN then .ok (acc, pos)
        else
          match parseF tokens consts f (.value pos) with
          | .fuelOut => .fuelOut
          | .err e => .err e
          | .ok (v, pos2) => parseF tokens consts f (.listItems pos2 (acc ++ [v]))) := rfl

/-- Unfolding lemma for the entry loop of `parse_struct`. -/
theorem parseF_structItems (tokens : List Token) (consts) (f pos : Nat)
    (obj : List (List Char × Value)) :
    parseF tokens consts (f + 1) (.structItems pos obj) =
      (match peek tokens pos with
      | none => .ok (obj, pos)
      | some tok =>
        if tok.type = .RBRACE then .ok (obj, pos)
        else
          match consume tokens pos (some .IDENT) with
          | .error e => .err e
          | .ok (ktok, pos2) =>
            match consume tokens pos2 (some .EQUAL) with
            | .error e => .err e
            | .ok (_, pos3) =>
              match parseF tokens consts f (.value pos3) with
              | .fuelOut => .fuelOut
              | .err e => .err e
              | .ok (v, pos4) =>
                match peek tokens pos4 with
                | some c2 =>
                  if c2.type = .COMMA then
                    parseF tokens consts f (.structItems (pos4 + 1) (dictUpdate ktok.value v obj))
                  else
                    parseF tokens consts f (.structItems pos4 (dictUpdate ktok.value v obj))
                | none =>
                  parseF tokens consts f (.structItems pos4 (dictUpdate ktok.value v obj))) := rfl

/-- The cursor at which a parser activity starts. -/
def reqPos : PReq → Nat
  | .value pos => pos
  | .listItems pos _ => pos
  | .structItems pos _ => pos

/-- Cursor facts guaranteed on success: the item loops never move backwards
and `parse_value` consumes at least one token; no activity ends past the end
of the token list. -/
def progressOf (tokens : List Token) : (req : PReq) → POutTy req → Prop
  | .value pos, (_, p') => pos < p' ∧ p' ≤ tokens.length
  | .listItems pos _, (_, p') => pos ≤ p' ∧ p' ≤ tokens.length
  | .structItems pos _, (_, p') => pos ≤ p' ∧ p' ≤ tokens.length

theorem peek_some_lt : ∀ (tokens : List Token) pos tok,
    peek tokens pos = some tok → pos < tokens.length := by
  intro tokens pos tok h
  unfold peek at h
  by_contra hge
  rw [List.getElem?_eq_none (by omega)] at h
  exact Option.noConfusion h

theorem consume_ok : ∀ (tokens : List Token) pos expected tok p',
    consume tokens pos expected = .ok (tok, p') →
    p' = pos + 1 ∧ pos < tokens.length ∧ peek tokens pos = some tok := by
  intro tokens pos expected tok p' h
  unfold consume at h
  split at h
  · exact absurd h (by simp)
  · rename_i tok0 hp
    have hlt := peek_some_lt tokens pos tok0 hp
    split at h
    · split at h
      · cases h; exact ⟨rfl, hlt, hp⟩
      · exact absurd h (by simp)
    · cases h; exact ⟨rfl, hlt, hp⟩

theorem parseF_progress : ∀ fuel (tokens : List Token) consts (req : PReq) (out : POutTy req),
    reqPos req ≤ tokens.length → parseF tokens consts fuel req = .ok out →
    progressOf tokens req out := by
  intro fuel
  induction fuel with
  | zero =>
    intro tokens consts req out hle h
    rw [parseF_zero] at h
    exact absurd h (by simp)
  | succ f ih =>
    intro tokens consts req out hle h
    cases req with
    | value pos =>
      rw [parseF_value] at h
      obtain ⟨v, p'⟩ := out
      simp only [reqPos] at hle
      simp only [progressOf]
      split at h
      · exact absurd h (by simp)
      · rename_i tok hp
        have hplt := peek_some_lt tokens pos tok hp
        split at h
        · cases h; omega
        · split at h
          · cases h; omega
          · split at h
            · -- CONST
              split at h
              · exact absurd h (by simp)
              · cases h; omega
            · split at h
              · -- LIST
                split at h
                · exact absurd h (by simp)
                · exact absurd h (by simp)
                · rename_i items pos2 hrec
                  split at h
                  · exact absurd h (by simp)
                  · rename_i tk pos3 hc
                    have hprog := ih tokens consts (.listItems (pos + 1) []) (items, pos2)
                      (by simp only [reqPos]; omega) hrec
                    simp only [progressOf] at hprog
                    have hco := consume_ok tokens pos2 _ tk pos3 hc
                    cases h
                    omega
              · split at h
                · -- STRUCT
                  split at h
                  · exact absurd h (by simp)
                  · rename_i tk1 pos2 hc1
                    have hco1 := consume_ok tokens (pos + 1) _ tk1 pos2 hc1
                    split at h
                    · exact absurd h (by simp)
                    · exact absurd h (by simp)
                    · rename_i obj pos3 hrec
                      have hprog := ih tokens consts (.structItems pos2 []) (obj, pos3)
                        (by simp only [reqPos]; omega) hrec
                      simp only [progressOf] at hprog
                      split at h
                      · exact absurd h (by simp)
                      · rename_i tk2 pos4 hc2
                        have hco2 := consume_ok tokens pos3 _ tk2 pos4 hc2
                        cases h
                        omega
                · exact absurd h (by simp)
    | listItems pos acc =>
      rw [parseF_listItems] at h
      obtain ⟨l, p'⟩ := out
      simp only [reqPos] at hle
      simp only [progressOf]
      split at h
      · cases h; omega
      · rename_i tok hp
        have hplt := peek_some_lt tokens pos tok hp
        split at h
        · cases h; omega
        · split at h
          · exact absurd h (by simp)
          · exact absurd h (by simp)
          · rename_i v2 pos2 hrec
            have hprog := ih tokens consts (.value pos) (v2, pos2)
              (by simp only [reqPos]; omega) hrec
            simp only [progressOf] at hprog
            have hrest := ih tokens consts (.listItems pos2 (acc ++ [v2])) (l, p')
              (by simp only [reqPos]; omega) h
            simp only [progressOf] at hrest
            omega
    | structItems pos obj =>
      rw [parseF_structItems] at h
      obtain ⟨o, p'⟩ := out
      simp only [reqPos] at hle
      simp only [progressOf]
      split at h
      · cases h; omega
      · rename_i tok hp
        have hplt := peek_some_lt tokens pos tok hp
        split at h
        · cases h; omega
        · split at h
          · exact absurd h (by simp)
          · rename_i ktok pos2 hc1
            have hco1 := consume_ok tokens pos _ ktok pos2 hc1
            split at h
            · exact absurd h (by simp)
            · rename_i tk2 pos3 hc2
              have hco2 := consume_ok tokens pos2 _ tk2 pos3 hc2
              split at h
              · exact absurd h (by simp)
              · exact absurd h (by simp)
              · rename_i v2 pos4 hrec
                have hprog := ih tokens consts (.value pos3) (v2, pos4)
                  (by simp only [reqPos]; omega) hrec
                simp only [progressOf] at hprog
                split at h
                · rename_i c2 hp4
                  have hp4lt := peek_some_lt tokens pos4 c2 hp4
                  split at h
                  · have hrest := ih tokens consts
                      (.structItems (pos4 + 1) (dictUpdate ktok.value v2 obj)) (o, p')
                      (by simp only [reqPos]; omega) h
                    simp only [progressOf] at hrest
                    omega
                  · have hrest := ih tokens consts
                      (.structItems pos4 (dictUpdate ktok.value v2 obj)) (o, p')
                      (by simp only [reqPos]; omega) h
                    simp only [progressOf] at hrest
                    omega
                · have hrest := ih tokens consts
                    (.structItems pos4 (dictUpdate ktok.value v2 obj)) (o, p')
                    (by simp only [reqPos]; omega) h
                  simp only [progressOf] at hrest
                  omega

/-- Fuel that suffices for an activity: every cycle through the mutual
recursion advances the cursor, so roughly two fuel units per remaining
token are enough. -/
def fuelNeed (tokens : List Token) : PReq → Nat
  | .value pos => 2 * (tokens.length - pos) + 1
  | .listItems pos _ => 2 * (tokens.length - pos) + 2
  | .structItems pos _ => 2 * (tokens.length - pos) + 2

/-- The parser's recursion terminates: with fuel at least `fuelNeed`, `parseF`
never exhausts its fuel. -/
theorem parseF_ne_fuelOut : ∀ fuel (tokens : List Token) consts (req : PReq),
    fuelNeed tokens req ≤ fuel → parseF tokens consts fuel req ≠ .fuelOut := by
  intro fuel
  induction fuel with
  | zero =>
    intro tokens consts req hle
    cases req <;> simp only [fuelNeed] at hle <;> omega
  | succ f ih =>
    intro tokens consts req hle
    cases req with
    | value pos =>
      rw [parseF_value]
      simp only [fuelNeed] at hle
      split
      · simp
      · rename_i tok hp
        have hplt := peek_some_lt tokens pos tok hp
        split
        · simp
        · split
          · simp
          · split
            · split <;> simp
            · split
              · -- LIST
                have hne := ih tokens consts (.listItems (pos + 1) [])
                  (by simp only [fuelNeed]; omega)
                split
                · rename_i hrec; exact absurd hrec hne
                · simp
                · split <;> simp
              · split
                · -- STRUCT
                  split
                  · simp
                  · rename_i tk1 pos2 hc1
                    have hco1 := consume_ok tokens (pos + 1) _ tk1 pos2 hc1
                    have hne := ih tokens consts (.structItems pos2 [])
                      (by simp only [fuelNeed]; omega)
                    split
                    · rename_i hrec; exact absurd hrec hne
                    · simp
                    · split <;> simp
                · simp
    | listItems pos acc =>
      rw [parseF_listItems]
      simp only [fuelNeed] at hle
      split
      · simp
      · rename_i tok hp
        have hplt := peek_some_lt tokens pos tok hp
        split
        · simp
        · have hne := ih tokens consts (.value pos) (by simp only [fuelNeed]; omega)
          split
          · rename_i hrec; exact absurd hrec hne
          · simp
          · rename_i v2 pos2 hrec
            have hprog := parseF_progress f tokens consts (.value pos) (v2, pos2)
              (by simp only [reqPos]; omega) hrec
            simp only [progressOf] at hprog
            exact ih tokens consts (.listItems pos2 (acc ++ [v2]))
              (by simp only [fuelNeed]; omega)
    | structItems pos obj =>
      rw [parseF_structItems]
      simp only [fuelNeed] at hle
      split
      · simp
      · rename_i tok hp
        have hplt := peek_some_lt tokens pos tok hp
        split
        · simp
        · split
          · simp
          · rename_i ktok pos2 hc1
            have hco1 := consume_ok tokens pos _ ktok pos2 hc1
            split
            · simp
            · rename_i tk2 pos3 hc2
              have hco2 := consume_ok tokens pos2 _ tk2 pos3 hc2
              have hne := ih tokens consts (.value pos3) (by simp only [fuelNeed]; omega)
              split
              · rename_i hrec; exact absurd hrec hne
              · simp
              · rename_i v2 pos4 hrec
                have hprog := parseF_progress f tokens consts (.value pos3) (v2, pos4)
                  (by simp only [reqPos]; omega) hrec
                simp only [progressOf] at hprog
                split
                · rename_i c2 hp4
                  have hp4lt := peek_some_lt tokens pos4 c2 hp4
                  split
                  · exact ih tokens consts (.structItems (pos4 + 1) (dictUpdate ktok.value v2 obj))
                      (by simp only [fuelNeed]; omega)
                  · exact ih tokens consts (.structItems pos4 (dictUpdate ktok.value v2 obj))
                      (by simp only [fuelNeed]; omega)
                · exact ih tokens consts (.structItems pos4 (dictUpdate ktok.value v2 obj))
                    (by simp only [fuelNeed]; omega)

/-- A fuel budget sufficient for any activity on this token list. -/
def bigFuel (tokens : List Token) : Nat := 2 * tokens.length + 2

theorem bigFuel_enough (tokens : List Token) (req : PReq) :
    fuelNeed tokens req ≤ bigFuel tokens := by
  cases req <;> simp only [fuelNeed, bigFuel] <;> omega

/-- `Parser.parse_value`, with the always-sufficient fuel budget; the
`fuelOut` branch is unreachable by `parseF_ne_fuelOut`. -/
def parse_value (tokens : List Token) (consts : List (List Char × Value)) (pos : Nat) :
    Except Err (Value × Nat) :=
  match h : parseF tokens consts (bigFuel tokens) (.value pos) with
  | .fuelOut =>
    False.elim (parseF_ne_fuelOut _ tokens consts _ (bigFuel_enough tokens _) h)
  | .err e => .error e
  | .ok r => .ok r

theorem parse_value_ok_iff : ∀ tokens consts pos r,
    parse_value tokens consts pos = .ok r ↔
      parseF tokens consts (bigFuel tokens) (.value pos) = .ok r := by
  intro tokens consts pos r
  unfold parse_value
  split
  · rename_i h
    exact absurd h (parseF_ne_fuelOut _ tokens consts _ (bigFuel_enough tokens _))
  · rename_i e h
    rw [h]
    simp
  · rename_i r0 h
    rw [h]
    simp

theorem parse_value_err_iff : ∀ tokens consts pos e,
    parse_value tokens consts pos = .error e ↔
      parseF tokens consts (bigFuel tokens) (.value pos) = .err e := by
  intro tokens consts pos e
  unfold parse_value
  split
  · rename_i h
    exact absurd h (parseF_ne_fuelOut _ tokens consts _ (bigFuel_enough tokens _))
  · rename_i e0 h
    rw [h]
    simp
  · rename_i r0 h
    rw [h]
    simp

theorem parse_value_progress : ∀ tokens consts pos v p', pos ≤ tokens.length →
    parse_value tokens consts pos = .ok (v, p') → pos < p' ∧ p' ≤ tokens.length := by
  intro tokens consts pos v p' hle h
  rw [parse_value_ok_iff] at h
  have := parseF_progress (bigFuel tokens) tokens consts (.value pos) (v, p')
    (by simp only [reqPos]; omega) h
  simpa only [progressOf] using this

/-- `Parser.parse_set`: `set`, identifier, `=`, then a value; defines (or
redefines) the constant immediately. -/
def parse_set (tokens : List Token) (consts : List (List Char × Value)) (pos : Nat) :
    Except Err ((List (List Char × Value)) × Nat) :=
  match consume tokens pos (some .SET) with
  | .error e => .error e
  | .ok (_, p1) =>
    match consume tokens p1 (some .IDENT) with
    | .error e => .error e
    | .ok (ntok, p2) =>
      match consume tokens p2 (some .EQUAL) with
      | .error e => .error e
      | .ok (_, p3) =>
        match parse_value tokens consts p3 with
        | .error e => .error e
        | .ok (v, p4) => .ok (dictUpdate ntok.value v consts, p4)

theorem parse_set_progress : ∀ tokens consts pos c2 p', pos ≤ tokens.length →
    parse_set tokens consts pos = .ok (c2, p') → pos < p' ∧ p' ≤ tokens.length := by
  intro tokens consts pos c2 p' hle h
  unfold parse_set at h
  split at h
  · exact absurd h (by simp)
  · rename_i tk1 p1 hc1
    have hco1 := consume_ok tokens pos _ tk1 p1 hc1
    split at h
    · exact absurd h (by simp)
    · rename_i ntok p2 hc2
      have hco2 := consume_ok tokens p1 _ ntok p2 hc2
      split at h
      · exact absurd h (by simp)
      · rename_i tk3 p3 hc3
        have hco3 := consume_ok tokens p2 _ tk3 p3 hc3
        split at h
        · exact absurd h (by simp)
        · rename_i v p4 hv
          have := parse_value_progress tokens consts p3 v p4 (by omega) hv
          cases h
          omega

/-- The `while self.peek()` loop of `Parser.parse`, fueled: `set` statements
update only the constant table, any other token parses a value that replaces
the running result. -/
def parseLoopF (tokens : List Token) (fuel : Nat) (consts : List (List Char × Value))
    (pos : Nat) (res : Option Value) : PRes (Option Value) :=
  match fuel with
  | 0 => .fuelOut
  | f + 1 =>
    match peek tokens pos with
    | none => .ok res
    | some tok =>
      if tok.type = .SET then
        match parse_set tokens consts pos with
        | .error e => .err e
        | .ok (c2, p2) => parseLoopF tokens f c2 p2 res
      else
        match parse_value tokens consts pos with
        | .error e => .err e
        | .ok (v, p2) => parseLoopF tokens f consts p2 (some v)

/-- Unfolding lemma for the top-level loop. -/
theorem parseLoopF_succ (tokens : List Token) (f : Nat) (consts) (pos res) :
    parseLoopF tokens (f + 1) consts pos res =
      (match peek tokens pos with
      | none => .ok res
      | some tok =>
        if tok.type = .SET then
          match parse_set tokens consts pos with
          | .error e => .err e
          | .ok (c2, p2) => parseLoopF tokens f c2 p2 res
        else
          match parse_value tokens consts pos with
          | .error e => .err e
          | .ok (v, p2) => parseLoopF tokens f consts p2 (some v)) := rfl

/-- The top-level loop terminates: each iteration advances the cursor. -/
theorem parseLoopF_ne_fuelOut : ∀ fuel (tokens : List Token) consts pos res,
    tokens.length - pos < fuel → parseLoopF tokens fuel consts pos res ≠ .fuelOut := by
  intro fuel
  induction fuel with
  | zero => intro tokens consts pos res h; omega
  | succ f ih =>
    intro tokens consts pos res h
    rw [parseLoopF_succ]
    split
    · simp
    · rename_i tok hp
      have hplt := peek_some_lt tokens pos tok hp
      split
      · split
        · simp
        · rename_i c2 p2 hs
          have := parse_set_progress tokens consts pos c2 p2 (by omega) hs
          exact ih tokens c2 p2 res (by omega)
      · split
        · simp
        · rename_i v p2 hv
          have := parse_value_progress tokens consts pos v p2 (by omega) hv
          exact ih tokens consts p2 (some v) (by omega)

/-- The loop's result does not depend on the fuel, provided the fuel is
sufficient. -/
theorem parseLoopF_stable : ∀ f1 f2 (tokens : List Token) consts pos res,
    tokens.length - pos < f1 → tokens.length - pos < f2 →
    parseLoopF tokens f1 consts pos res = parseLoopF tokens f2 consts pos res := by
  intro f1
  induction f1 with
  | zero => intro f2 tokens consts pos res h1 h2; omega
  | succ f ih =>
    intro f2 tokens consts pos res h1 h2
    match f2 with
    | 0 => omega
    | g + 1 =>
      rw [parseLoopF_succ, parseLoopF_succ]
      split
      · rfl
      · rename_i tok hp
        have hplt := peek_some_lt tokens pos tok hp
        split
        · split
          · rfl
          · rename_i c2 p2 hs
            have := parse_set_progress tokens consts pos c2 p2 (by omega) hs
            exact ih g tokens c2 p2 res (by omega) (by omega)
        · split
          · rfl
          · rename_i v p2 hv
            have := parse_value_progress tokens consts pos v p2 (by omega) hv
            exact ih g tokens consts p2 (some v) (by omega) (by omega)

/-- One state of `Parser.parse`'s loop, with the always-sufficient fuel
`length + 1`; the `fuelOut` branch is unreachable by `parseLoopF_ne_fuelOut`. -/
def parseLoop (tokens : List Token) (consts : List (List Char × Value)) (pos : Nat)
    (res : Option Value) : Except Err (Option Value) :=
  match h : parseLoopF tokens (tokens.length + 1) consts pos res with
  | .fuelOut => False.elim (parseLoopF_ne_fuelOut _ tokens consts pos res (by omega) h)
  | .err e => .error e
  | .ok r => .ok r

/-- `Parser.parse`: loop from cursor 0 with an empty constant table and a
`None` running result. -/
def parse (tokens : List Token) : Except Err (Option Value) := parseLoop tokens [] 0 none

/-- The full core pipeline of `main`: strip comments, tokenize, parse. -/
def pipeline (text : List Char) : Except Err (Option Value) :=
  match tokenize (remove_comments text) with
  | .error e => .error e
  | .ok tokens => parse tokens

/-! ## Lifting lemmas between the fueled workers and their wrappers -/

theorem tokenize_ok_iff : ∀ text ts,
    tokenize text = .ok ts ↔ tokenizeAuxF (text.length + 1) text 0 = .ok ts := by
  intro text ts
  unfold tokenize
  split
  · rename_i h
    exact absurd h (tokenizeAuxF_ne_fuelOut _ text 0 (by omega))
  · rename_i e h
    rw [h]
    simp
  · rename_i ts0 h
    rw [h]
    simp

theorem tokenize_err_iff : ∀ text e,
    tokenize text = .error e ↔ tokenizeAuxF (text.length + 1) text 0 = .err e := by
  intro text e
  unfold tokenize
  split
  · rename_i h
    exact absurd h (tokenizeAuxF_ne_fuelOut _ text 0 (by omega))
  · rename_i e0 h
    rw [h]
    simp
  · rename_i ts0 h
    rw [h]
    simp

theorem parseLoop_eq_ok : ∀ (tokens : List Token) consts pos res r,
    parseLoopF tokens (tokens.length + 1) consts pos res = .ok r →
    parseLoop tokens consts pos res = .ok r := by
  intro tokens consts pos res r h
  unfold parseLoop
  split
  · rename_i h'
    rw [h] at h'
    exact absurd h' (by simp)
  · rename_i e h'
    rw [h] at h'
    exact absurd h' (by simp)
  · rename_i r0 h'
    rw [h] at h'
    cases h'
    rfl

theorem parseLoop_eq_err : ∀ (tokens : List Token) consts pos res e,
    parseLoopF tokens (tokens.length + 1) consts pos res = .err e →
    parseLoop tokens consts pos res = .error e := by
  intro tokens consts pos res e h
  unfold parseLoop
  split
  · rename_i h'
    rw [h] at h'
    exact absurd h' (by simp)
  · rename_i e0 h'
    rw [h] at h'
    cases h'
    rfl
  · rename_i r0 h'
    rw [h] at h'
    exact absurd h' (by simp)

/-- Two loop states with equal fueled results have equal wrapped results. -/
theorem parseLoop_congr : ∀ (tokens : List Token) c1 p1 r1 c2 p2 r2,
    parseLoopF tokens (tokens.length + 1) c1 p1 r1 =
      parseLoopF tokens (tokens.length + 1) c2 p2 r2 →
    parseLoop tokens c1 p1 r1 = parseLoop tokens c2 p2 r2 := by
  intro tokens c1 p1 r1 c2 p2 r2 h
  rcases hS : parseLoopF tokens (tokens.length + 1) c2 p2 r2 with _ | e | r
  · exact absurd hS (parseLoopF_ne_fuelOut _ tokens c2 p2 r2 (by omega))
  · rw [parseLoop_eq_err tokens c1 p1 r1 e (h.trans hS),
      parseLoop_eq_err tokens c2 p2 r2 e hS]
  · rw [parseLoop_eq_ok tokens c1 p1 r1 r (h.trans hS),
      parseLoop_eq_ok tokens c2 p2 r2 r hS]

/-! ## Claim theorems -/

/-- Evaluating the decimal literals appearing in the concrete test inputs. -/
theorem pyFloat_one : pyFloat ['1', '.', '0'] = 1 := by
  simp +decide [pyFloat, digitsToNat, List.takeWhile, List.dropWhile]

theorem pyFloat_two : pyFloat ['2', '.', '0'] = 2 := by
  simp +decide [pyFloat, digitsToNat, List.takeWhile, List.dropWhile]

theorem pyFloat_three : pyFloat ['3', '.', '0'] = 3 := by
  simp +decide [pyFloat, digitsToNat, List.takeWhile, List.dropWhile]

/-- C1: the claim says every parse failure on an exhausted cursor is a
`SyntaxError` with message `Unexpected end of input`. The code disagrees: on
the claim's own examples `set x =` and `struct{a=`, `Parser.parse_value`
evaluates `self.peek().type` while `peek()` is `None`, raising an
`AttributeError` instead of a `SyntaxError` (only `consume` guards the
exhausted cursor, as the third conjunct shows on `struct{a=1.0`). -/
theorem C1_attribute_error_on_exhausted_cursor :
    pipeline "set x =".toList = .error .attributeError ∧
    pipeline "struct\x7ba=".toList = .error .attributeError ∧
    pipeline "struct\x7ba=1.0".toList = .error (.syntaxError "Unexpected end of input") :=
  ⟨rfl, rfl, rfl⟩

/-- C7: struct literals parse as zero-or-more `key = value` entries with an
optional comma after each entry, stopping at `}`: `struct{a=1.0,b='x'}` gives
the two-entry mapping, a trailing comma gives the identical result, `struct{}`
is empty, and an unterminated struct fails with the end-of-input
`SyntaxError`. -/
theorem C7_struct_literals :
    pipeline ("struct\x7ba=1.0,b=".toList ++ [quoteC, 'x', quoteC] ++ ['}']) =
      .ok (some (.struct [(['a'], .num (pyFloat ['1', '.', '0'])), (['b'], .str ['x'])])) ∧
    pipeline "struct{a=1.0,}".toList =
      .ok (some (.struct [(['a'], .num (pyFloat ['1', '.', '0']))])) ∧
    pipeline "struct{a=1.0}".toList =
      .ok (some (.struct [(['a'], .num (pyFloat ['1', '.', '0']))])) ∧
    pipeline "struct{}".toList = .ok (some (.struct [])) ∧
    pipeline "struct\x7ba=1.0".toList = .error (.syntaxError "Unexpected end of input") ∧
    pyFloat ['1', '.', '0'] = 1 :=
  ⟨rfl, rfl, rfl, rfl, rfl, pyFloat_one⟩

/-- C10: duplicate keys in a struct literal do not raise: parsing succeeds
and the mapping binds the key to the value of its last occurrence (Python
dict update keeps the first occurrence's position). -/
theorem C10_duplicate_struct_keys :
    pipeline "struct{a=1.0,a=2.0}".toList =
      .ok (some (.struct [(['a'], .num (pyFloat ['2', '.', '0']))])) ∧
    pipeline "struct{a=1.0,b=3.0,a=2.0}".toList =
      .ok (some (.struct [(['a'], .num (pyFloat ['2', '.', '0'])),
        (['b'], .num (pyFloat ['3', '.', '0']))])) ∧
    dictGet ['a'] [(['a'], .num (pyFloat ['2', '.', '0'])),
      (['b'], .num (pyFloat ['3', '.', '0']))] = some (.num (pyFloat ['2', '.', '0'])) ∧
    pyFloat ['2', '.', '0'] = 2 :=
  ⟨rfl, rfl, rfl, pyFloat_two⟩

/-- C4: a `|name|` reference with no prior `set name = ...` fails with a
`SyntaxError`; with one, it resolves to exactly the value bound by the most
recent definition at that point, and re-`set`ting the name later does not
change values already substituted into the result (the last two conjuncts:
`set x = 1.0 set x = 2.0 |x|` gives 2.0, while `set x = 1.0 |x| set x = 2.0`
gives 1.0). -/
theorem C4_constant_resolution :
    (∀ tokens consts pos tok, peek tokens pos = some tok → tok.type = .CONST →
      dictGet (stripAll pipeC tok.value) consts = none →
      parse_value tokens consts pos =
        .error (.syntaxError ("Unknown constant " ++ String.mk (stripAll pipeC tok.value)))) ∧
    (∀ tokens consts pos tok v, peek tokens pos = some tok → tok.type = .CONST →
      dictGet (stripAll pipeC tok.value) consts = some v →
      parse_value tokens consts pos = .ok (v, pos + 1)) ∧
    pipeline "|x|".toList = .error (.syntaxError "Unknown constant x") ∧
    pipeline "set x = 1.0 set x = 2.0 |x|".toList =
      .ok (some (.num (pyFloat ['2', '.', '0']))) ∧
    pipeline "set x = 1.0 |x| set x = 2.0".toList =
      .ok (some (.num (pyFloat ['1', '.', '0']))) := by
  refine ⟨?_, ?_, rfl, rfl, rfl⟩
  · intro tokens consts pos tok hp htype hdg
    rw [parse_value_err_iff]
    rw [show bigFuel tokens = 2 * tokens.length + 1 + 1 from rfl, parseF_value]
    simp [hp, htype, hdg]
  · intro tokens consts pos tok v hp htype hdg
    rw [parse_value_ok_iff]
    rw [show bigFuel tokens = 2 * tokens.length + 1 + 1 from rfl, parseF_value]
    simp [hp, htype, hdg]

/-- Witness for C4 at concrete inputs: `|x|` with an empty table errors, and
with `x` bound to `1.0` it resolves to that value. -/
theorem C4_constant_resolution_witness :
    parse_value [⟨.CONST, [pipeC, 'x', pipeC]⟩] [] 0 =
      .error (.syntaxError ("Unknown constant " ++ String.mk ['x'])) ∧
    parse_value [⟨.CONST, [pipeC, 'x', pipeC]⟩] [(['x'], .num 1)] 0 = .ok (.num 1, 1) := by
  constructor
  · have h := C4_constant_resolution.1 [⟨.CONST, [pipeC, 'x', pipeC]⟩] [] 0
      ⟨.CONST, [pipeC, 'x', pipeC]⟩ rfl rfl rfl
    rw [h]
    rfl
  · exact C4_constant_resolution.2.1 [⟨.CONST, [pipeC, 'x', pipeC]⟩] [(['x'], .num 1)] 0
      ⟨.CONST, [pipeC, 'x', pipeC]⟩ (.num 1) rfl rfl rfl

/-- C3: the top-level loop keeps only the last non-`set` value. In loop-state
form: the empty token list parses to `None`; a `set` statement updates the
constant table and leaves the running result unchanged; any other
successfully parsed value overwrites the running result (so an earlier value
is parsed and then discarded without error); and when the cursor is
exhausted the loop returns whatever result is currently kept (`None` if no
non-`set` value was ever parsed). -/
theorem C3_last_value_wins :
    parse [] = .ok none ∧
    (∀ (tokens : List Token) consts pos res tok c2 p2,
      peek tokens pos = some tok → tok.type = .SET →
      parse_set tokens consts pos = .ok (c2, p2) →
      parseLoop tokens consts pos res = parseLoop tokens c2 p2 res) ∧
    (∀ (tokens : List Token) consts pos res tok v p2,
      peek tokens pos = some tok → tok.type ≠ .SET →
      parse_value tokens consts pos = .ok (v, p2) →
      parseLoop tokens consts pos res = parseLoop tokens consts p2 (some v)) ∧
    (∀ (tokens : List Token) consts pos res,
      peek tokens pos = none → parseLoop tokens consts pos res = .ok res) := by
  refine ⟨rfl, ?_, ?_, ?_⟩
  · intro tokens consts pos res tok c2 p2 hp htype hs
    have hplt := peek_some_lt tokens pos tok hp
    have hprog := parse_set_progress tokens consts pos c2 p2 (by omega) hs
    apply parseLoop_congr
    rw [show tokens.length + 1 = tokens.length + 1 from rfl, parseLoopF_succ]
    simp only [hp, htype, hs, if_true, eq_self_iff_true]
    exact parseLoopF_stable tokens.length (tokens.length + 1) tokens c2 p2 res
      (by omega) (by omega)
  · intro tokens consts pos res tok v p2 hp htype hv
    have hplt := peek_some_lt tokens pos tok hp
    have hprog := parse_value_progress tokens consts pos v p2 (by omega) hv
    apply parseLoop_congr
    rw [parseLoopF_succ]
    simp only [hp, hv]
    rw [if_neg htype]
    exact parseLoopF_stable tokens.length (tokens.length + 1) tokens consts p2 (some v)
      (by omega) (by omega)
  · intro tokens consts pos res hp
    apply parseLoop_eq_ok
    rw [parseLoopF_succ, hp]

/-- Witness for C3 on `set x = 1.0 .5`: the `set` step keeps the running
result and only extends the table; the value step overwrites the result; the
exhausted cursor returns the kept value. -/
theorem C3_last_value_wins_witness :
    parseLoop [⟨.SET, "set".toList⟩, ⟨.IDENT, ['x']⟩, ⟨.EQUAL, ['=']⟩,
        ⟨.NUMBER, ['1', '.', '0']⟩, ⟨.NUMBER, ['.', '5']⟩] [] 0 none =
      parseLoop [⟨.SET, "set".toList⟩, ⟨.IDENT, ['x']⟩, ⟨.EQUAL, ['=']⟩,
        ⟨.NUMBER, ['1', '.', '0']⟩, ⟨.NUMBER, ['.', '5']⟩]
        [(['x'], .num (pyFloat ['1', '.', '0']))] 4 none ∧
    parseLoop [⟨.SET, "set".toList⟩, ⟨.IDENT, ['x']⟩, ⟨.EQUAL, ['=']⟩,
        ⟨.NUMBER, ['1', '.', '0']⟩, ⟨.NUMBER, ['.', '5']⟩]
        [(['x'], .num (pyFloat ['1', '.', '0']))] 4 none =
      parseLoop [⟨.SET, "set".toList⟩, ⟨.IDENT, ['x']⟩, ⟨.EQUAL, ['=']⟩,
        ⟨.NUMBER, ['1', '.', '0']⟩, ⟨.NUMBER, ['.', '5']⟩]
        [(['x'], .num (pyFloat ['1', '.', '0']))] 5 (some (.num (pyFloat ['.', '5']))) ∧
    parseLoop [⟨.SET, "set".toList⟩, ⟨.IDENT, ['x']⟩, ⟨.EQUAL, ['=']⟩,
        ⟨.NUMBER, ['1', '.', '0']⟩, ⟨.NUMBER, ['.', '5']⟩]
        [(['x'], .num (pyFloat ['1', '.', '0']))] 5 (some (.num (pyFloat ['.', '5']))) =
      .ok (some (.num (pyFloat ['.', '5']))) :=
  ⟨C3_last_value_wins.2.1 _ [] 0 none ⟨.SET, "set".toList⟩ _ 4 rfl rfl rfl,
   C3_last_value_wins.2.2.1 _ _ 4 none ⟨.NUMBER, ['.', '5']⟩ _ 5 rfl (by decide) rfl,
   C3_last_value_wins.2.2.2 _ _ 5 _ rfl⟩

/-- Unfolding lemma for one iteration of the lexer loop. -/
theorem tokenizeAuxF_cons (f : Nat) (c : Char) (rest : List Char) (pos : Nat) :
    tokenizeAuxF (f + 1) (c :: rest) pos =
      (match firstMatch (c :: rest) with
      | some (t, n) =>
        match tokenizeAuxF f ((c :: rest).drop n) (pos + n) with
        | .fuelOut => .fuelOut
        | .err e => .err e
        | .ok ts => .ok (if t = .SKIP then ts else ⟨t, (c :: rest).take n⟩ :: ts)
      | none => .err (.syntaxError ("Unexpected character at position " ++ toString pos))) := rfl

/-- C8: at the first position where no pattern of `TOKEN_REGEX` matches, the
lexer loop stops with a `SyntaxError` naming that 0-based offset; because the
whole tokenization returns this error, no token at or after that position is
produced. Concretely, `@` fails at offset 0, and in `.5 @` (where `.5` and
the space lex fine) it fails at offset 3. -/
theorem C8_unknown_character_offset :
    (∀ (fuel : Nat) (c : Char) (rest : List Char) (pos : Nat),
      firstMatch (c :: rest) = none →
      tokenizeAuxF (fuel + 1) (c :: rest) pos =
        .err (.syntaxError ("Unexpected character at position " ++ toString pos))) ∧
    tokenize ['@'] = .error (.syntaxError "Unexpected character at position 0") ∧
    tokenize ".5 @".toList = .error (.syntaxError "Unexpected character at position 3") := by
  refine ⟨?_, rfl, rfl⟩
  intro fuel c rest pos hm
  rw [tokenizeAuxF_cons, hm]

/-- Witness for C8: no pattern matches at `@`, and the loop reports offset 7. -/
theorem C8_unknown_character_offset_witness :
    tokenizeAuxF 3 ['@'] 7 = .err (.syntaxError "Unexpected character at position 7") := by
  have h := C8_unknown_character_offset.1 2 '@' [] 7 rfl
  exact h

/-- C9: tokenization and parsing terminate on every input. Lexer side: every
successful pattern match consumes at least one character (and at most the
remaining text), so fuel `length + 1` never runs out. Parser side: with
sufficient fuel `parseF` never runs out of fuel, every successful
`parse_value` strictly advances the cursor, and the top-level loop never runs
out of fuel either. These are exactly the facts that make the fueled
embedding total at the budgets used by `tokenize` and `parse`. -/
theorem C9_termination :
    (∀ cs t n, firstMatch cs = some (t, n) → 0 < n ∧ n ≤ cs.length) ∧
    (∀ fuel cs pos, cs.length < fuel → tokenizeAuxF fuel cs pos ≠ .fuelOut) ∧
    (∀ fuel (tokens : List Token) consts (req : PReq),
      fuelNeed tokens req ≤ fuel → parseF tokens consts fuel req ≠ .fuelOut) ∧
    (∀ fuel (tokens : List Token) consts pos (v : Value) p', pos ≤ tokens.length →
      parseF tokens consts fuel (.value pos) = .ok (v, p') → pos < p' ∧ p' ≤ tokens.length) ∧
    (∀ fuel (tokens : List Token) consts pos res,
      tokens.length - pos < fuel → parseLoopF tokens fuel consts pos res ≠ .fuelOut) := by
  refine ⟨firstMatch_bounds, tokenizeAuxF_ne_fuelOut, parseF_ne_fuelOut, ?_,
    parseLoopF_ne_fuelOut⟩
  intro fuel tokens consts pos v p' hle h
  have := parseF_progress fuel tokens consts (.value pos) (v, p')
    (by simp only [reqPos]; omega) h
  simpa only [progressOf] using this

/-- Witness for C9 at concrete inputs: the `(list` match consumes five of six
characters; the lexer, parser and loop workers all return non-`fuelOut`
results at their budgets; a `NUMBER` parse advances the cursor from 0 to 1. -/
theorem C9_termination_witness :
    (0 < 5 ∧ 5 ≤ 6) ∧
    tokenizeAuxF 7 "(list)".toList 0 ≠ .fuelOut ∧
    parseF [⟨.NUMBER, ['.', '5']⟩] [] 4 (.value 0) ≠ .fuelOut ∧
    (0 < 1 ∧ 1 ≤ 1) ∧
    parseLoopF [⟨.NUMBER, ['.', '5']⟩] 2 [] 0 none ≠ .fuelOut :=
  ⟨C9_termination.1 "(list)".toList .LIST 5 rfl,
   C9_termination.2.1 7 "(list)".toList 0 (by decide),
   C9_termination.2.2.1 4 [⟨.NUMBER, ['.', '5']⟩] [] (.value 0) (by decide),
   C9_termination.2.2.2.1 4 [⟨.NUMBER, ['.', '5']⟩] [] 0 (.num (pyFloat ['.', '5'])) 1
     (by decide) rfl,
   C9_termination.2.2.2.2 2 [⟨.NUMBER, ['.', '5']⟩] [] 0 none (by decide)⟩

/-- The `STRING` pattern cannot match unless the text starts with a quote. -/
theorem m_string_head_ne : ∀ c r, ¬ (c = quoteC) → m_string (c :: r) = none := by
  intro c r h
  simp only [m_string]
  split
  · simp [h]
  · rfl

/-- The `CONST` pattern cannot match unless the text starts with a pipe. -/
theorem m_const_head_ne : ∀ c r, ¬ (c = pipeC) → m_const (c :: r) = none := by
  intro c r h
  cases r with
  | nil => simp [m_const]
  | cons c2 r2 =>
    simp only [m_const]
    split
    · simp [h]
    · rfl

/-- C5: the lexer takes the first pattern in the fixed priority order that
matches at the current position, not the longest match. Consequently `(list`
followed by a non-word character lexes as one `LIST` token (the `LIST`
pattern precedes `LPAREN`), while `(list` followed by a word character lexes
as `LPAREN` (then the rest separately); and `set`/`struct` at word
boundaries lex as keywords, but followed by a word character they lex as
identifiers (the keyword patterns precede `IDENT`). -/
theorem C5_fixed_priority_order :
    (∀ c rest, isWordChar c = false →
      firstMatch ('(' :: 'l' :: 'i' :: 's' :: 't' :: c :: rest) = some (.LIST, 5)) ∧
    (∀ c rest, isWordChar c = true →
      firstMatch ('(' :: 'l' :: 'i' :: 's' :: 't' :: c :: rest) = some (.LPAREN, 1)) ∧
    tokenize "(list)".toList =
      .ok [⟨.LIST, "(list".toList⟩, ⟨.RPAREN, [')']⟩] ∧
    tokenize "(lists)".toList =
      .ok [⟨.LPAREN, ['(']⟩, ⟨.IDENT, "lists".toList⟩, ⟨.RPAREN, [')']⟩] ∧
    tokenize "set".toList = .ok [⟨.SET, "set".toList⟩] ∧
    tokenize "sets".toList = .ok [⟨.IDENT, "sets".toList⟩] ∧
    tokenize "struct".toList = .ok [⟨.STRUCT, "struct".toList⟩] ∧
    tokenize "structs".toList = .ok [⟨.IDENT, "structs".toList⟩] := by
  refine ⟨?_, ?_, rfl, rfl, rfl, rfl, rfl, rfl⟩
  · intro c rest hc
    have hs1 : m_string ('(' :: 'l' :: 'i' :: 's' :: 't' :: c :: rest) = none :=
      m_string_head_ne '(' _ (by decide)
    have hs2 : m_const ('(' :: 'l' :: 'i' :: 's' :: 't' :: c :: rest) = none :=
      m_const_head_ne '(' _ (by decide)
    simp +decide [firstMatch, TOKEN_REGEX, tryMatchers, m_number, m_set, m_struct, m_list,
      m_keyword, hs1, hs2, List.dropWhile, List.isPrefixOf, hc]
  · intro c rest hc
    have hs1 : m_string ('(' :: 'l' :: 'i' :: 's' :: 't' :: c :: rest) = none :=
      m_string_head_ne '(' _ (by decide)
    have hs2 : m_const ('(' :: 'l' :: 'i' :: 's' :: 't' :: c :: rest) = none :=
      m_const_head_ne '(' _ (by decide)
    simp +decide [firstMatch, TOKEN_REGEX, tryMatchers, m_number, m_set, m_struct, m_list,
      m_keyword, hs1, hs2, m_ident, m_char, m_skip,
      List.dropWhile, List.takeWhile, List.isPrefixOf, isSkipChar, hc]

/-- Witness for C5: `)` is not a word character, so `(list)` starts with a
`LIST` token; `s` is a word character, so `(lists` starts with `LPAREN`. -/
theorem C5_fixed_priority_order_witness :
    firstMatch ('(' :: 'l' :: 'i' :: 's' :: 't' :: ')' :: []) = some (.LIST, 5) ∧
    firstMatch ('(' :: 'l' :: 'i' :: 's' :: 't' :: 's' :: []) = some (.LPAREN, 1) :=
  ⟨C5_fixed_priority_order.1 ')' [] (by decide),
   C5_fixed_priority_order.2.1 's' [] (by decide)⟩

/-! ## Lemmas about number lexing (claim C6) -/

theorem takeWhile_all : ∀ (p : Char → Bool) (l : List Char), (∀ c ∈ l, p c = true) →
    l.takeWhile p = l := by
  intro p l
  induction l with
  | nil => intro _; rfl
  | cons a t ih =>
    intro h
    rw [List.takeWhile_cons, if_pos (h a (by simp)), ih (fun c hc => h c (by simp [hc]))]

theorem dropWhile_all : ∀ (p : Char → Bool) (l : List Char), (∀ c ∈ l, p c = true) →
    l.dropWhile p = [] := by
  intro p l
  induction l with
  | nil => intro _; rfl
  | cons a t ih =>
    intro h
    rw [List.dropWhile_cons, if_pos (h a (by simp)), ih (fun c hc => h c (by simp [hc]))]

theorem takeWhile_append_stop : ∀ (p : Char → Bool) (l1 : List Char) (d : Char) (l2 : List Char),
    (∀ c ∈ l1, p c = true) → p d = false → (l1 ++ d :: l2).takeWhile p = l1 := by
  intro p l1 d l2 h1 hd
  induction l1 with
  | nil => simp [List.takeWhile_cons, hd]
  | cons a t ih =>
    rw [List.cons_append, List.takeWhile_cons, if_pos (h1 a (by simp)),
      ih (fun c hc => h1 c (by simp [hc]))]

theorem dropWhile_append_stop : ∀ (p : Char → Bool) (l1 : List Char) (d : Char) (l2 : List Char),
    (∀ c ∈ l1, p c = true) → p d = false → (l1 ++ d :: l2).dropWhile p = d :: l2 := by
  intro p l1 d l2 h1 hd
  induction l1 with
  | nil => simp [List.dropWhile_cons, hd]
  | cons a t ih =>
    rw [List.cons_append, List.dropWhile_cons, if_pos (h1 a (by simp)),
      ih (fun c hc => h1 c (by simp [hc]))]

/-- A digit cannot equal any character that is not a digit. -/
theorem digit_ne : ∀ (d ch : Char), d.isDigit = true → ch.isDigit = false → ¬ (d = ch) := by
  intro d ch hd hch heq
  rw [heq, hch] at hd
  cases hd

/-- A digit is not a lowercase letter (character-range argument). -/
theorem digit_not_lower : ∀ d : Char, d.isDigit = true → d.isLower = false := by
  intro d h
  simp only [Char.isDigit, Char.isLower, Bool.and_eq_true, decide_eq_true_eq] at h ⊢
  obtain ⟨h1, h2⟩ := h
  by_contra hb
  simp only [Bool.not_eq_false, Bool.and_eq_true, decide_eq_true_eq] at hb
  obtain ⟨h3, h4⟩ := hb
  have h5 : (97 : UInt32) ≤ 57 := UInt32.le_trans h3 h2
  exact absurd h5 (by decide)

/-- A keyword matcher fails when the keyword is not a prefix. -/
theorem m_keyword_not_prefix : ∀ kw cs, kw.isPrefixOf cs = false → m_keyword kw cs = none := by
  intro kw cs h
  simp [m_keyword, h]

/-- `m_number` matches the whole of a decimal literal `\d*\.\d+`. -/
theorem m_number_decimal : ∀ ds fs : List Char, (∀ c ∈ ds, c.isDigit = true) → fs ≠ [] →
    (∀ c ∈ fs, c.isDigit = true) →
    m_number (ds ++ '.' :: fs) = some (ds ++ '.' :: fs).length := by
  intro ds fs hds hne hfs
  unfold m_number
  simp only [dropWhile_append_stop Char.isDigit ds '.' fs hds (by decide)]
  rw [takeWhile_all Char.isDigit fs hfs]
  rw [takeWhile_append_stop Char.isDigit ds '.' fs hds (by decide)]
  rw [if_pos ⟨by trivial, by simpa [List.isEmpty_iff] using hne⟩]
  simp [List.length_append]
  omega

/-- The decimal literal is accepted by the first pattern in the table. -/
theorem firstMatch_decimal : ∀ ds fs : List Char, (∀ c ∈ ds, c.isDigit = true) → fs ≠ [] →
    (∀ c ∈ fs, c.isDigit = true) →
    firstMatch (ds ++ '.' :: fs) = some (.NUMBER, (ds ++ '.' :: fs).length) := by
  intro ds fs hds hne hfs
  simp only [firstMatch, TOKEN_REGEX, tryMatchers, m_number_decimal ds fs hds hne hfs]

theorem tokenizeAuxF_nil : ∀ fuel pos, tokenizeAuxF fuel [] pos = .ok [] := by
  intro fuel pos
  cases fuel <;> rfl

/-- A text whose whole extent is one `NUMBER` match lexes to that one token. -/
theorem tokenize_whole_number : ∀ cs : List Char, cs ≠ [] →
    firstMatch cs = some (.NUMBER, cs.length) → tokenize cs = .ok [⟨.NUMBER, cs⟩] := by
  intro cs hne hfm
  rw [tokenize_ok_iff]
  match cs with
  | [] => exact absurd rfl hne
  | c :: r =>
    rw [tokenizeAuxF_cons, hfm]
    simp [List.drop_length, List.take_length, tokenizeAuxF_nil]

/-- A single `NUMBER` token parses to `float` of its text, and that value is
the program's result. -/
theorem parse_number_token : ∀ text : List Char,
    parse [⟨.NUMBER, text⟩] = .ok (some (.num (pyFloat text))) := by
  intro text
  rfl

/-- `float` of a decimal literal is its exact decimal interpretation. -/
theorem pyFloat_decimal : ∀ ds fs : List Char, (∀ c ∈ ds, c.isDigit = true) →
    (∀ c ∈ fs, c.isDigit = true) →
    pyFloat (ds ++ '.' :: fs) =
      (digitsToNat ds : ℚ) + (digitsToNat fs : ℚ) / (10 : ℚ) ^ fs.length := by
  intro ds fs hds hfs
  unfold pyFloat
  rw [dropWhile_append_stop Char.isDigit ds '.' fs hds (by decide)]
  rw [takeWhile_append_stop Char.isDigit ds '.' fs hds (by decide)]
  simp

/-- C6: for every decimal literal `\d*\.\d+` (digits `ds`, a dot, nonempty
digits `fs`), lexing yields a single `NUMBER` token covering the whole text
and parsing yields its exact decimal interpretation (Python's `float` is
modelled as an exact rational); a bare nonempty digit string with no dot
matches no pattern, so tokenizing it fails with the `SyntaxError` at
offset 0. -/
theorem C6_decimal_literals :
    (∀ ds fs : List Char, (∀ c ∈ ds, c.isDigit = true) → fs ≠ [] →
      (∀ c ∈ fs, c.isDigit = true) →
      tokenize (ds ++ '.' :: fs) = .ok [⟨.NUMBER, ds ++ '.' :: fs⟩] ∧
      parse [⟨.NUMBER, ds ++ '.' :: fs⟩] =
        .ok (some (.num ((digitsToNat ds : ℚ) + (digitsToNat fs : ℚ) / (10 : ℚ) ^ fs.length)))) ∧
    (∀ ds : List Char, ds ≠ [] → (∀ c ∈ ds, c.isDigit = true) →
      tokenize ds = .error (.syntaxError "Unexpected character at position 0")) := by
  constructor
  · intro ds fs hds hne hfs
    constructor
    · exact tokenize_whole_number (ds ++ '.' :: fs) (by simp)
        (firstMatch_decimal ds fs hds hne hfs)
    · rw [parse_number_token, pyFloat_decimal ds fs hds hfs]
  · intro ds hne hds
    match ds with
    | [] => exact absurd rfl hne
    | d :: r =>
      have hd : d.isDigit = true := hds d (by simp)
      have hr : ∀ c ∈ r, c.isDigit = true := fun c hc => hds c (by simp [hc])
      have hfm : firstMatch (d :: r) = none := by
        have hnum : m_number (d :: r) = none := by
          simp [m_number, dropWhile_all Char.isDigit (d :: r) hds]
        have hstr : m_string (d :: r) = none :=
          m_string_head_ne d r (digit_ne d quoteC hd (by decide))
        have hset : m_set (d :: r) = none := by
          apply m_keyword_not_prefix
          simp only [List.isPrefixOf]
          have := digit_ne d 's' hd (by decide)
          simp [beq_eq_false_iff_ne, Ne, this]
          intro heq
          exact absurd heq.symm this
        have hstruct : m_struct (d :: r) = none := by
          apply m_keyword_not_prefix
          simp only [List.isPrefixOf]
          have := digit_ne d 's' hd (by decide)
          simp [beq_eq_false_iff_ne, Ne, this]
          intro heq
          exact absurd heq.symm this
        have hlist : m_list (d :: r) = none := by
          apply m_keyword_not_prefix
          simp only [List.isPrefixOf]
          have := digit_ne d '(' hd (by decide)
          simp [beq_eq_false_iff_ne, Ne, this]
          intro heq
          exact absurd heq.symm this
        have hconst : m_const (d :: r) = none :=
          m_const_head_ne d r (digit_ne d pipeC hd (by decide))
        have hident : m_ident (d :: r) = none := by
          simp [m_ident, digit_not_lower d hd]
        have hskip : m_skip (d :: r) = none := by
          have h1 : isSkipChar d = false := by
            simp [isSkipChar, digit_ne d ' ' hd (by decide), digit_ne d tabC hd (by decide),
              digit_ne d nlC hd (by decide)]
          simp [m_skip, List.takeWhile_cons, h1]
        have hb1 : m_char '{' (d :: r) = none := by
          simp [m_char, digit_ne d '{' hd (by decide)]
        have hb2 : m_char '}' (d :: r) = none := by
          simp [m_char, digit_ne d '}' hd (by decide)]
        have hb3 : m_char '(' (d :: r) = none := by
          simp [m_char, digit_ne d '(' hd (by decide)]
        have hb4 : m_char ')' (d :: r) = none := by
          simp [m_char, digit_ne d ')' hd (by decide)]
        have hb5 : m_char '=' (d :: r) = none := by
          simp [m_char, digit_ne d '=' hd (by decide)]
        have hb6 : m_char ',' (d :: r) = none := by
          simp [m_char, digit_ne d ',' hd (by decide)]
        simp only [firstMatch, TOKEN_REGEX, tryMatchers, hnum, hstr, hset, hstruct,
          hlist, hconst, hident, hskip, hb1, hb2, hb3, hb4, hb5, hb6]
      rw [tokenize_err_iff]
      rw [tokenizeAuxF_cons, hfm]
      rfl

/-- Witness for C6 at `3.14` and at the bare integer `3`. -/
theorem C6_decimal_literals_witness :
    (tokenize ['3', '.', '1', '4'] = .ok [⟨.NUMBER, ['3', '.', '1', '4']⟩] ∧
      parse [⟨.NUMBER, ['3', '.', '1', '4']⟩] =
        .ok (some (.num ((digitsToNat ['3'] : ℚ) +
          (digitsToNat ['1', '4'] : ℚ) / (10 : ℚ) ^ (['1', '4'] : List Char).length)))) ∧
    tokenize ['3'] = .error (.syntaxError "Unexpected character at position 0") := by
  constructor
  · have h := C6_decimal_literals.1 ['3'] ['1', '4'] (by decide) (by decide) (by decide)
    exact h
  · exact C6_decimal_literals.2 ['3'] (by decide) (by decide)

/-! ## Lemmas about comment stripping (claim C2) -/

/-- Does the text contain `--[[` anywhere? -/
def hasCommentStart : List Char → Bool
  | [] => false
  | c :: rest => startsComment (c :: rest) || hasCommentStart rest

/-- Does the text contain `]]` anywhere? -/
def hasTwoRBrack : List Char → Bool
  | a :: b :: rest => if a = ']' ∧ b = ']' then true else hasTwoRBrack (b :: rest)
  | _ => false

/-- Unfolding lemma for one step of the comment-removal scan. -/
theorem removeCommentsF_cons (f : Nat) (c : Char) (rest : List Char) :
    removeCommentsF (f + 1) (c :: rest) =
      (match commentEnd (c :: rest) with
      | some rem => removeCommentsF f rem
      | none => (removeCommentsF f rest).map (c :: ·)) := rfl

/-- When the body (plus the first closing bracket) contains no `]]`, the
non-greedy scan finds exactly the comment's own terminator. -/
theorem findClose_exact : ∀ (body s : List Char), hasTwoRBrack (body ++ [']']) = false →
    findClose (body ++ ']' :: ']' :: s) = some s := by
  intro body
  induction body with
  | nil => intro s _; simp [findClose]
  | cons c rest ih =>
    intro s h
    cases rest with
    | nil =>
      rw [show ([c] ++ ']' :: ']' :: s) = c :: ']' :: ']' :: s from rfl, findClose]
      rw [show ([c] ++ [']']) = c :: ']' :: [] from rfl, hasTwoRBrack] at h
      split at h
      · cases h
      · rename_i hcond
        rw [if_neg hcond]
        simp [findClose]
    | cons c2 rest2 =>
      rw [show ((c :: c2 :: rest2) ++ ']' :: ']' :: s) = c :: c2 :: (rest2 ++ ']' :: ']' :: s)
        from rfl, findClose]
      rw [show ((c :: c2 :: rest2) ++ [']']) = c :: c2 :: (rest2 ++ [']']) from rfl,
        hasTwoRBrack] at h
      split at h
      · cases h
      · rename_i hcond
        rw [if_neg hcond]
        exact ih s h

/-- No comment opener at this position means no comment match here. -/
theorem commentEnd_none_of_not_starts : ∀ cs, startsComment cs = false → commentEnd cs = none := by
  intro cs h
  match cs with
  | [] => rfl
  | [a] => rfl
  | [a, b] => rfl
  | [a, b, c] => rfl
  | a :: b :: c :: d :: t =>
    simp only [startsComment, decide_eq_false_iff_not] at h
    simp [commentEnd, h]

theorem hasCommentStart_cons : ∀ c rest, hasCommentStart (c :: rest) = false →
    startsComment (c :: rest) = false ∧ hasCommentStart rest = false := by
  intro c rest h
  rw [hasCommentStart] at h
  exact ⟨by simp at h; exact h.1, by simp at h; exact h.2⟩

theorem hasCommentStart_append_right : ∀ p s, hasCommentStart (p ++ s) = false →
    hasCommentStart s = false := by
  intro p
  induction p with
  | nil => intro s h; exact h
  | cons c p' ih =>
    intro s h
    exact ih s (hasCommentStart_cons c (p' ++ s) h).2

/-- `startsComment` inspects only the first four characters. -/
theorem startsComment_first4 : ∀ (a b c d : Char) (t1 t2 : List Char),
    startsComment (a :: b :: c :: d :: t1) = startsComment (a :: b :: c :: d :: t2) := by
  intro a b c d t1 t2
  rfl

/-- On comment-free text the scan is the identity. -/
theorem rcF_id : ∀ fuel cs, cs.length < fuel → hasCommentStart cs = false →
    removeCommentsF fuel cs = some cs := by
  intro fuel
  induction fuel with
  | zero => intro cs h _; omega
  | succ f ih =>
    intro cs hlen h
    match cs with
    | [] => rfl
    | c :: rest =>
      obtain ⟨hsc, hrest⟩ := hasCommentStart_cons c rest h
      rw [removeCommentsF_cons, commentEnd_none_of_not_starts _ hsc]
      rw [ih rest (by simp only [List.length_cons] at hlen; omega) hrest]
      rfl

/-- Inserting the comment after `c :: p'` cannot create a comment opener at
the insertion boundary: a 1–3 character offset into `--[[` never reads
`--[[` again, and a deeper prefix is already ruled out by the text being
comment-free. -/
theorem startsComment_insert : ∀ (c : Char) (p' body' s : List Char),
    hasCommentStart ((c :: p') ++ s) = false →
    startsComment ((c :: p') ++ ('-' :: '-' :: '[' :: '[' :: body') ++ s) = false := by
  intro c p' body' s h
  match p' with
  | [] => simp [startsComment]
  | [a] => simp [startsComment]
  | [a, b] => simp [startsComment]
  | a :: b :: d :: p'' =>
    have hsc := (hasCommentStart_cons c (a :: b :: d :: p'' ++ s) h).1
    calc startsComment ((c :: a :: b :: d :: p'') ++ ('-' :: '-' :: '[' :: '[' :: body') ++ s)
        = startsComment (c :: a :: b :: d :: (p'' ++ ('-' :: '-' :: '[' :: '[' :: body') ++ s)) :=
          by simp
      _ = startsComment (c :: a :: b :: d :: (p'' ++ s)) := startsComment_first4 c a b d _ _
      _ = false := hsc

/-- The scan removes an inserted well-terminated comment exactly, leaving the
surrounding comment-free text unchanged. -/
theorem rcF_removes : ∀ fuel (p body s : List Char),
    (p ++ ('-' :: '-' :: '[' :: '[' :: (body ++ [']', ']'])) ++ s).length < fuel →
    hasCommentStart (p ++ s) = false →
    hasTwoRBrack (body ++ [']']) = false →
    removeCommentsF fuel (p ++ ('-' :: '-' :: '[' :: '[' :: (body ++ [']', ']'])) ++ s) =
      some (p ++ s) := by
  intro fuel
  induction fuel with
  | zero => intro p body s hlen _ _; omega
  | succ f ih =>
    intro p body s hlen h1 h2
    cases p with
    | nil =>
      have hlist : (([] : List Char) ++ ('-' :: '-' :: '[' :: '[' :: (body ++ [']', ']'])) ++ s)
          = '-' :: '-' :: '[' :: '[' :: (body ++ ']' :: ']' :: s) := by
        simp
      rw [hlist, removeCommentsF_cons]
      have hce : commentEnd ('-' :: '-' :: '[' :: '[' :: (body ++ ']' :: ']' :: s))
          = some s := by
        simp [commentEnd, findClose_exact body s h2]
      rw [hce]
      have hslen : s.length < f := by
        rw [hlist] at hlen
        simp only [List.length_cons, List.length_append] at hlen
        omega
      exact rcF_id f s hslen (hasCommentStart_append_right [] s h1)
    | cons c p' =>
      have hlist : ((c :: p') ++ ('-' :: '-' :: '[' :: '[' :: (body ++ [']', ']'])) ++ s)
          = c :: ((p' ++ ('-' :: '-' :: '[' :: '[' :: (body ++ [']', ']'])) ++ s)) := by
        simp
      rw [hlist, removeCommentsF_cons]
      have hsc : startsComment
          (c :: ((p' ++ ('-' :: '-' :: '[' :: '[' :: (body ++ [']', ']'])) ++ s)) ) = false := by
        have := startsComment_insert c p' (body ++ [']', ']']) s h1
        simpa using this
      rw [commentEnd_none_of_not_starts _ hsc]
      have hrest := ih p' body s
        (by rw [hlist] at hlen; simp only [List.length_cons] at hlen; omega)
        (hasCommentStart_cons c (p' ++ s) h1).2 h2
      rw [hrest]
      rfl

/-- Removing an inserted comment from otherwise comment-free text restores
the text exactly. -/
theorem remove_comments_insert : ∀ (p body s : List Char),
    hasCommentStart (p ++ s) = false → hasTwoRBrack (body ++ [']']) = false →
    remove_comments (p ++ ('-' :: '-' :: '[' :: '[' :: (body ++ [']', ']'])) ++ s) = p ++ s := by
  intro p body s h1 h2
  unfold remove_comments
  rw [rcF_removes _ p body s (by omega) h1 h2]
  rfl

/-- Comment-free text is unchanged by comment stripping. -/
theorem remove_comments_id : ∀ cs, hasCommentStart cs = false → remove_comments cs = cs := by
  intro cs h
  unfold remove_comments
  rw [rcF_id (cs.length + 1) cs (by omega) h]
  rfl

/-- C2 as stated is false: inserting a block comment can change the parse
when the original text already contains comment-like fragments. The text
`'--[[hi'` alone is a string literal (the lexer's quote pattern wins and the
stripper finds no `]]`), but appending the comment `--[[c]]` makes the
stripper match from the `--[[` inside the string to the first `]]`, leaving
the lone quote `'`, which fails to tokenize. -/
theorem C2_comment_insertion_counterexample :
    pipeline (([quoteC] ++ ['-', '-', '[', '[', 'h', 'i'] ++ [quoteC]) ++
        ['-', '-', '[', '[', 'c', ']', ']']) ≠
      pipeline ([quoteC] ++ ['-', '-', '[', '[', 'h', 'i'] ++ [quoteC]) := by
  have h1 : pipeline (([quoteC] ++ ['-', '-', '[', '[', 'h', 'i'] ++ [quoteC]) ++
      ['-', '-', '[', '[', 'c', ']', ']']) =
      .error (.syntaxError "Unexpected character at position 0") := rfl
  have h2 : pipeline ([quoteC] ++ ['-', '-', '[', '[', 'h', 'i'] ++ [quoteC]) =
      .ok (some (.str ['-', '-', '[', '[', 'h', 'i'])) := rfl
  rw [h1, h2]
  exact fun h => Except.noConfusion h

/-- C2 amended: inserting a block comment `--[[ body ]]` anywhere into a text
has no effect on the parsed result, provided the surrounding text contains no
`--[[` of its own and the comment's only `]]` is its terminator (without
these provisos the claim fails, see the counterexample: the regex-based
stripper can bridge from comment-like text into the inserted comment). -/
theorem C2_comment_insertion_amended : ∀ p s body : List Char,
    hasCommentStart (p ++ s) = false → hasTwoRBrack (body ++ [']']) = false →
    pipeline (p ++ ('-' :: '-' :: '[' :: '[' :: (body ++ [']', ']'])) ++ s) =
      pipeline (p ++ s) := by
  intro p s body h1 h2
  unfold pipeline
  rw [remove_comments_insert p body s h1 h2, remove_comments_id (p ++ s) h1]

/-- Witness for amended C2: inserting `--[[ hi ]]` before `.5` does not
change the parse. -/
theorem C2_comment_insertion_amended_witness :
    pipeline (([] : List Char) ++
        ('-' :: '-' :: '[' :: '[' :: ((" hi ".toList : List Char) ++ [']', ']'])) ++
        ['.', '5']) =
      pipeline (([] : List Char) ++ ['.', '5']) :=
  C2_comment_insertion_amended [] ['.', '5'] " hi ".toList (by decide) (by decide)

end ConfigHW
